import Mathlib

/-!
Verification of the Nanopolish SLURM wrapper (nanopolish_slurm_wrapper.py).

The script orchestrates: workspace creation (os.mkdir), range planning
(nanopolish_makerange via subprocess.check_output), read alignment and
indexing, one sbatch job per range, a polling loop over squeue, placeholder
FASTA synthesis for ranges with no output, and a final merge, followed by
workspace removal.

The embedding below models each of these steps as pure functions over an
explicit environment recording the results of the external commands.  An
uncaught Python exception (subprocess check=True / check_output failures,
os.mkdir on an existing directory, int() on a malformed range) is modelled
as an `Except.error`, which corresponds to the process halting with a
non-zero exit status.
-/

/-- Splitting of a character list at every occurrence of `sep`, keeping empty
groups — the embedding of Python's `str.split(sep)` with an explicit
separator. -/
def splitChar (sep : Char) : List Char → List (List Char)
  | [] => [[]]
  | c :: cs =>
    match splitChar sep cs with
    | [] => [[]]
    | g :: gs => if c = sep then [] :: g :: gs else (c :: g) :: gs

/-- Numeric value of a digit list, most significant digit first. -/
def digitsVal (l : List Char) : Nat :=
  l.foldl (fun acc c => acc * 10 + (c.toNat - 48)) 0

/-- The embedding of int() applied to the digit strings produced by
range splitting: defined exactly on non-empty all-digit strings; `none`
models the ValueError raised otherwise. -/
def parseNat? (l : List Char) : Option Nat :=
  if l.isEmpty then none
  else if l.all Char.isDigit then some (digitsVal l) else none

/-- The embedding of the splitlines method on command output: split at every
newline and drop the single trailing empty group a terminal newline
creates (`"".splitlines() = []`, `"a\nb\n".splitlines() = ["a","b"]`). -/
def splitlines (s : String) : List String :=
  match (splitChar '\n' s.data).getLast? with
  | some [] => ((splitChar '\n' s.data).dropLast).map String.mk
  | _ => (splitChar '\n' s.data).map String.mk

/-- Embedding of line 80 of nanopolish_slurm_wrapper.py, the parse of the
start coordinate: split at the last colon, then take the piece before the
first dash and convert it with int(). -/
def rangeStart? (r : String) : Option Nat :=
  parseNat? ((splitChar '-' ((splitChar ':' r.data).getLastD [])).headD [])

/-- Embedding of line 81 of nanopolish_slurm_wrapper.py, the parse of the
end coordinate: the piece after the last dash, converted with int(). -/
def rangeEnd? (r : String) : Option Nat :=
  parseNat? ((splitChar '-' r.data).getLastD [])

/-- The filler sequence written for an incomplete range: the character N
repeated n times (line 87). -/
def nFill (n : Nat) : String := String.mk (List.replicate n 'N')

/-- The expected output file name of a range (lines 58, 75, 79). -/
def fastaName (r : String) : String := "polished." ++ r ++ ".fa"

/-- The job-name prefix of a run (line 55). -/
def jobPfx (pid : String) : String := "Nanopolish_" ++ pid ++ "_"

/-- The job name of one range of a run (line 57). -/
def jobName (pid r : String) : String := jobPfx pid ++ r

/-- One line of `squeue -o "%.70j %.8i %.10T"` output: job name, job id and
state separated by spaces (field padding omitted; it consists of spaces,
which never occur in a job-name prefix). -/
def squeueLine (name id st : String) : String := name ++ " " ++ id ++ " " ++ st

/-- Boolean list-prefix test (structural, so that concrete instances reduce
in the kernel). -/
def isPrefixB : List Char → List Char → Bool
  | [], _ => true
  | _ :: _, [] => false
  | a :: as, b :: bs => a = b && isPrefixB as bs

/-- Boolean substring test: the embedding of Python's `pat in s`. -/
def isInfixB (pat : List Char) : List Char → Bool
  | [] => isPrefixB pat []
  | c :: rest => isPrefixB pat (c :: rest) || isInfixB pat rest

/-- Boolean list-suffix test. -/
def isSuffixB (pat s : List Char) : Bool := isPrefixB pat.reverse s.reverse

/-- Embedding of get_remaining_nanopolish_jobs (lines 105-108): count of squeue output
lines containing the run's job-name prefix as a substring. -/
def get_remaining_nanopolish_jobs (pfx : String) (current_jobs : List String) : Nat :=
  (current_jobs.filter (fun x => isInfixB pfx.data x.data)).length

/-- Embedding of get_nanopolish_ranges (lines 99-102): check_output raises
on a non-zero exit (modelled as `Except.error exitCode`); on success the
output is split into lines.  An empty output yields `ok []`. -/
def get_nanopolish_ranges (res : Except Nat String) : Except Nat (List String) :=
  match res with
  | Except.error c => Except.error c
  | Except.ok out => Except.ok (splitlines out)

/-- The placeholder file written for one incomplete range (lines 79-88):
header line `'>' + incomplete_range`, then `'N' * (end - start)`.  `none`
models the ValueError `int()` raises on a malformed range identifier,
which would abort the script before any write. -/
def fillerFile (r : String) : Option (List String) :=
  match rangeStart? r, rangeEnd? r with
  | some s, some e => some [">" ++ r, nFill (e - s)]
  | _, _ => none

/-- A workspace file system: file name to file content (as lines). -/
abbrev Fs := String → Option (List String)

/-- The incomplete ranges (line 75): the planned ranges whose expected
output file is absent from the workspace. -/
def incompleteRanges (polish_ranges : List String) (fs : Fs) : List String :=
  polish_ranges.filter (fun x => (fs (fastaName x)).isNone)

/-- The write loop of lines 78-88 over a given list of ranges: each range's
placeholder file is created in turn; a malformed range aborts the loop. -/
def fillAll (fs : Fs) : List String → Option Fs
  | [] => some fs
  | r :: rs =>
    match fillerFile r with
    | none => none
    | some ls => fillAll (Function.update fs (fastaName r) (some ls)) rs

/-- The FailureFiller step (lines 74-88): compute the incomplete ranges from
the current file system, then write one placeholder file per incomplete
range. -/
def runFiller (polish_ranges : List String) (fs : Fs) : Option Fs :=
  fillAll fs (incompleteRanges polish_ranges fs)

/-- The errors on which the script halts with a non-zero exit (an uncaught
Python exception). -/
inductive RunError where
  | workspaceExists
  | plannerFailed (code : Nat)
  | alignFailed
  | bamIndexFailed
  | npIndexFailed
  | submitFailed (r : String)
  | queryFailed
  | outOfFuel
  | fillFailed
  | mergeFailed
deriving DecidableEq

/-- The stages of `main`, in source order. -/
inductive Stage where
  | workspace
  | planning
  | aligning
  | bamIndexing
  | npIndexing
  | submitting
  | monitoring
  | filling
  | merging
  | cleanup
deriving DecidableEq

/-- The two ways the waiting loop can fail to return a poll index: the
squeue query raised, or the loop is still running when the inspected fuel
runs out. -/
inductive MonErr where
  | queryFailed
  | outOfFuel
deriving DecidableEq

/-- Injection of monitor failures into run failures. -/
def monErr : MonErr → RunError
  | MonErr.queryFailed => RunError.queryFailed
  | MonErr.outOfFuel => RunError.outOfFuel

/-- The waiting loop of lines 64-72: every iteration first sleeps 60 seconds,
then queries squeue (a failed query raises, modelled as `queryFailed`), and
exits when no line contains the job prefix.  `fuel` bounds the number of
iterations we inspect; the result records the index of the poll at which the
loop exited and the number of sleeps incurred. -/
def monitorLoop (pfx : String) (squeue : Nat → Except Unit (List String)) :
    Nat → Nat → Nat → Except MonErr (Nat × Nat)
  | 0, _, _ => Except.error MonErr.outOfFuel
  | fuel + 1, k, s =>
    match squeue k with
    | Except.error _ => Except.error MonErr.queryFailed
    | Except.ok lines =>
      if get_remaining_nanopolish_jobs pfx lines = 0 then Except.ok (k, s + 1)
      else monitorLoop pfx squeue fuel (k + 1) (s + 1)

/-- The submission loop of lines 56-61: one `sbatch` per range, in order,
with `check=True` — the first rejected submission raises. -/
def submitAll (ok : String → Bool) (pfx : String) : List String → Except String Unit
  | [] => Except.ok ()
  | r :: rs => if ok (pfx ++ r) then submitAll ok pfx rs else Except.error r

/-- The environment of one invocation: the process id, and the outcome of
every external effect `main` performs, in source order. -/
structure Env where
  pid : String
  tempDirExists : Bool
  plannerResult : Except Nat String
  alignOk : Bool
  bamIndexOk : Bool
  npIndexOk : Bool
  sbatchOk : String → Bool
  squeue : Nat → Except Unit (List String)
  jobFiles : Fs
  mergeOk : Bool

/-- The observable result of one invocation: the stages entered, the final
outcome (`error` = non-zero exit), and whether the workspace was removed. -/
structure RunResult where
  trace : List Stage
  outcome : Except RunError Unit
  workspaceRemoved : Bool

/-- The embedding of the `main` function (lines 15-96): workspace creation, range
planning, alignment, bam indexing, nanopolish indexing, job submission,
monitoring, failure filling, merging, cleanup — each stage entered only if
every earlier stage succeeded, and any failure halting the run at once. -/
def runMain (env : Env) (fuel : Nat) : RunResult :=
  if env.tempDirExists = true then
    ⟨[Stage.workspace], Except.error RunError.workspaceExists, false⟩
  else
    match get_nanopolish_ranges env.plannerResult with
    | Except.error c =>
      ⟨[Stage.workspace, Stage.planning], Except.error (RunError.plannerFailed c), false⟩
    | Except.ok polish_ranges =>
      if env.alignOk = false then
        ⟨[Stage.workspace, Stage.planning, Stage.aligning],
          Except.error RunError.alignFailed, false⟩
      else if env.bamIndexOk = false then
        ⟨[Stage.workspace, Stage.planning, Stage.aligning, Stage.bamIndexing],
          Except.error RunError.bamIndexFailed, false⟩
      else if env.npIndexOk = false then
        ⟨[Stage.workspace, Stage.planning, Stage.aligning, Stage.bamIndexing,
            Stage.npIndexing],
          Except.error RunError.npIndexFailed, false⟩
      else
        match submitAll env.sbatchOk (jobPfx env.pid) polish_ranges with
        | Except.error r =>
          ⟨[Stage.workspace, Stage.planning, Stage.aligning, Stage.bamIndexing,
              Stage.npIndexing, Stage.submitting],
            Except.error (RunError.submitFailed r), false⟩
        | Except.ok _ =>
          match monitorLoop (jobPfx env.pid) env.squeue fuel 0 0 with
          | Except.error e =>
            ⟨[Stage.workspace, Stage.planning, Stage.aligning, Stage.bamIndexing,
                Stage.npIndexing, Stage.submitting, Stage.monitoring],
              Except.error (monErr e), false⟩
          | Except.ok _ =>
            match runFiller polish_ranges env.jobFiles with
            | none =>
              ⟨[Stage.workspace, Stage.planning, Stage.aligning, Stage.bamIndexing,
                  Stage.npIndexing, Stage.submitting, Stage.monitoring, Stage.filling],
                Except.error RunError.fillFailed, false⟩
            | some _ =>
              if env.mergeOk = true then
                ⟨[Stage.workspace, Stage.planning, Stage.aligning, Stage.bamIndexing,
                    Stage.npIndexing, Stage.submitting, Stage.monitoring, Stage.filling,
                    Stage.merging, Stage.cleanup],
                  Except.ok (), true⟩
              else
                ⟨[Stage.workspace, Stage.planning, Stage.aligning, Stage.bamIndexing,
                    Stage.npIndexing, Stage.submitting, Stage.monitoring, Stage.filling,
                    Stage.merging],
                  Except.error RunError.mergeFailed, false⟩

/-- Byte-wise lexicographic order on character lists: the order in which the
shell expands the glob `polished.*.fa` (line 92). -/
def leChars : List Char → List Char → Bool
  | [], _ => true
  | _ :: _, [] => false
  | a :: as, b :: bs => if a = b then leChars as bs else decide (a < b)

/-- Lexicographic order on file names, as a relation. -/
def strLe (a b : String) : Prop := leChars a.data b.data = true

instance decidableStrLe : DecidableRel strLe :=
  fun a b => instDecidableEqBool (leChars a.data b.data) true

/-- Whether a file name matches the glob pattern `polished.*.fa`. -/
def isPolishedNameB (n : String) : Bool :=
  isPrefixB "polished.".data n.data && isSuffixB ".fa".data n.data
    && decide (12 ≤ n.data.length)

/-- A file name of the shape `polished.<m>.fa`, as a proposition. -/
def isPolishedName (n : String) : Prop :=
  ∃ m : String, n = "polished." ++ m ++ ".fa"

/-- The list of files the merge command consumes, in the order the shell
hands them to the merger: the glob `polished.*.fa` selects the matching
names from the directory listing and sorts them lexicographically,
independently of the order the file system enumerates them. -/
def mergeInput (listing : List String) : List String :=
  List.insertionSort strLe (listing.filter isPolishedNameB)

/-- Modelled from the spec: the merge tool (nanopolish_merge.py, an external
collaborator not part of this repository) is described in §4.5/§6 as
concatenating the per-region files it is given, the reference behavior
relying on the shell glob order of its arguments.  The merged assembly is
the concatenation of the records of the files in `mergeInput` order. -/
def mergeOutput (listing : List String) (fs : Fs) : List String :=
  (mergeInput listing).flatMap (fun n => (fs n).getD [])

/-- First component of a region identifier: its contig name. -/
def contigOf (r : String) : List Char := (splitChar ':' r.data).headD []

/-- Modelled from the spec: the ordering §4.5/§8 demand of the merged
output — regions sorted by parsed start coordinate within each contig. -/
def coordLe (a b : String) : Prop :=
  (if contigOf a = contigOf b
    then decide ((rangeStart? a).getD 0 ≤ (rangeStart? b).getD 0)
    else leChars (contigOf a) (contigOf b)) = true

instance decidableCoordLe : DecidableRel coordLe :=
  fun a b =>
    instDecidableEqBool
      (if contigOf a = contigOf b
        then decide ((rangeStart? a).getD 0 <= (rangeStart? b).getD 0)
        else leChars (contigOf a) (contigOf b)) true

/-- Modelled from the spec: the region order the claim requires of the
merged assembly. -/
def coordSort (regions : List String) : List String :=
  List.insertionSort coordLe regions

/-- An environment in which every external step succeeds and the planner
emits two ranges. -/
def envGood : Env :=
  ⟨"1", false, Except.ok "c1:0-5\nc1:5-10\n", true, true, true,
    fun _ => true, fun _ => Except.ok [], fun _ => none, true⟩

/-- An environment in which the planner exits zero but prints nothing. -/
def envEmptyPlanner : Env :=
  ⟨"1", false, Except.ok "", true, true, true,
    fun _ => true, fun _ => Except.ok [], fun _ => none, true⟩

/-- An environment in which the planner exits with a non-zero status. -/
def envPlannerErr : Env :=
  ⟨"1", false, Except.error 1, true, true, true,
    fun _ => true, fun _ => Except.ok [], fun _ => none, true⟩

/-- An environment in which `<pid>_temp_dir` already exists. -/
def envDirTaken : Env :=
  ⟨"1", true, Except.ok "c1:0-5\n", true, true, true,
    fun _ => true, fun _ => Except.ok [], fun _ => none, true⟩

/-- A file system holding the outputs of the two ranges of the merge-order
counterexample. -/
def fsC2 : Fs := fun n =>
  if n = fastaName "c1:900-1000" then some [">" ++ "c1:900-1000", nFill 100]
  else if n = fastaName "c1:1000-1100" then some [">" ++ "c1:1000-1100", nFill 100]
  else none

/-- A file system in which the first range of `envGood` already has a real
output file. -/
def fsW : Fs := fun n => if n = fastaName "c1:0-5" then some ["x"] else none

/-- The empty file system. -/
def fsEmpty : Fs := fun _ => none

instance : IsTotal String strLe := by
  constructor
  intro a b
  have h : ∀ x y : List Char, leChars x y = true ∨ leChars y x = true := by
    intro x
    induction x with
    | nil => intro y; exact Or.inl rfl
    | cons c cs ih =>
      intro y
      cases y with
      | nil => exact Or.inr rfl
      | cons d ds =>
        by_cases hcd : c = d
        · subst hcd
          simpa [leChars] using ih ds
        · rcases lt_trichotomy c d with hlt | heq | hgt
          · exact Or.inl (by simp [leChars, hcd, hlt])
          · exact absurd heq hcd
          · exact Or.inr (by simp [leChars, Ne.symm hcd, hgt])
  exact h a.data b.data

instance : IsTrans String strLe := by
  constructor
  intro a b c hab hbc
  have h : ∀ x y z : List Char,
      leChars x y = true → leChars y z = true → leChars x z = true := by
    intro x
    induction x with
    | nil => intro y z _ _; rfl
    | cons cx xs ih =>
      intro y z h1 h2
      cases y with
      | nil => simp [leChars] at h1
      | cons cy ys =>
        cases z with
        | nil => simp [leChars] at h2
        | cons cz zs =>
          by_cases hxy : cx = cy
          · subst hxy
            by_cases hyz : cx = cz
            · subst hyz
              simp only [leChars, if_pos rfl] at h1 h2 ⊢
              exact ih ys zs h1 h2
            · simp [leChars, hyz] at h2 ⊢
              exact h2
          · by_cases hyz : cy = cz
            · subst hyz
              simp [leChars, hxy] at h1 ⊢
              exact h1
            · simp [leChars, hxy] at h1
              simp [leChars, hyz] at h2
              have hxz : cx < cz := lt_trans h1 h2
              simp [leChars, ne_of_lt hxz, hxz]
  exact h a.data b.data c.data hab hbc

instance : IsAntisymm String strLe := by
  constructor
  intro a b hab hba
  have h : ∀ x y : List Char, leChars x y = true → leChars y x = true → x = y := by
    intro x
    induction x with
    | nil =>
      intro y h1 h2
      cases y with
      | nil => rfl
      | cons d ds => simp [leChars] at h2
    | cons c cs ih =>
      intro y h1 h2
      cases y with
      | nil => simp [leChars] at h1
      | cons d ds =>
        by_cases hcd : c = d
        · subst hcd
          simp only [leChars, if_pos rfl] at h1 h2
          rw [ih ds h1 h2]
        · simp [leChars, hcd] at h1
          simp [leChars, Ne.symm hcd] at h2
          exact absurd (lt_trans h1 h2) (lt_irrefl c)
  cases a with
  | mk la =>
    cases b with
    | mk lb => exact congrArg String.mk (h la lb hab hba)

theorem fillAll_preserves : ∀ (l : List String) (fs fs' : Fs) (n : String),
    fillAll fs l = some fs' → (∀ r ∈ l, fastaName r ≠ n) → fs' n = fs n := by
  intro l
  induction l with
  | nil =>
    intro fs fs' n h _
    simp only [fillAll, Option.some.injEq] at h
    rw [← h]
  | cons a l ih =>
    intro fs fs' n h hn
    simp only [fillAll] at h
    cases hfa : fillerFile a with
    | none => rw [hfa] at h; simp at h
    | some ls =>
      rw [hfa] at h
      have hrec := ih _ _ n h (fun r hr => hn r (List.mem_cons_of_mem _ hr))
      rw [hrec, Function.update_noteq (Ne.symm (hn a (List.mem_cons_self _ _)))]

theorem fillAll_isSome_mono : ∀ (l : List String) (fs fs' : Fs) (n : String),
    fillAll fs l = some fs' → (fs n).isSome = true → (fs' n).isSome = true := by
  intro l
  induction l with
  | nil =>
    intro fs fs' n h hs
    simp only [fillAll, Option.some.injEq] at h
    rw [← h]; exact hs
  | cons a l ih =>
    intro fs fs' n h hs
    simp only [fillAll] at h
    cases hfa : fillerFile a with
    | none => rw [hfa] at h; simp at h
    | some ls =>
      rw [hfa] at h
      refine ih _ _ n h ?_
      by_cases he : n = fastaName a
      · subst he; rw [Function.update_same]; rfl
      · rw [Function.update_noteq he]; exact hs

theorem fillAll_covers : ∀ (l : List String) (fs fs' : Fs) (r : String),
    fillAll fs l = some fs' → r ∈ l → (fs' (fastaName r)).isSome = true := by
  intro l
  induction l with
  | nil => intro fs fs' r _ hr; exact absurd hr (List.not_mem_nil _)
  | cons a l ih =>
    intro fs fs' r h hr
    simp only [fillAll] at h
    cases hfa : fillerFile a with
    | none => rw [hfa] at h; simp at h
    | some ls =>
      rw [hfa] at h
      rcases List.mem_cons.mp hr with rfl | hr2
      · refine fillAll_isSome_mono l _ _ _ h ?_
        rw [Function.update_same]; rfl
      · exact ih _ _ r h hr2

theorem fillAll_new : ∀ (l : List String) (fs fs' : Fs) (n : String),
    fillAll fs l = some fs' → (fs' n).isSome = true →
      (fs n).isSome = true ∨ ∃ r ∈ l, fastaName r = n := by
  intro l
  induction l with
  | nil =>
    intro fs fs' n h hs
    simp only [fillAll, Option.some.injEq] at h
    rw [← h] at hs
    exact Or.inl hs
  | cons a l ih =>
    intro fs fs' n h hs
    simp only [fillAll] at h
    cases hfa : fillerFile a with
    | none => rw [hfa] at h; simp at h
    | some ls =>
      rw [hfa] at h
      rcases ih _ _ n h hs with hup | ⟨r, hr, he⟩
      · by_cases he : n = fastaName a
        · exact Or.inr ⟨a, List.mem_cons_self _ _, he.symm⟩
        · rw [Function.update_noteq he] at hup
          exact Or.inl hup
      · exact Or.inr ⟨r, List.mem_cons_of_mem _ hr, he⟩

/-- Claim C1: for every region in the planner's list whose output file is
absent, FailureFiller writes a file whose first line is `>` followed by the
region identifier verbatim, and whose sequence line has length exactly
`end - start`, with `start` and `end` the integers parsed from the region
identifier. -/
theorem c1_filler_shape (r : String) (s e : Nat)
    (hs : rangeStart? r = some s) (he : rangeEnd? r = some e) (hle : s ≤ e) :
    fillerFile r = some [">" ++ r, nFill (e - s)]
    ∧ (nFill (e - s)).length = e - s
    ∧ s + (nFill (e - s)).length = e := by
  have hlen : (nFill (e - s)).length = e - s := by
    simp [nFill, String.length]
  refine ⟨?_, hlen, ?_⟩
  · simp [fillerFile, hs, he]
  · rw [hlen]; omega

/-- Witness for C1: the region `contig1:100-150` yields the header
`>contig1:100-150` and a 50-character filler sequence. -/
theorem c1_filler_shape_witness :
    fillerFile "contig1:100-150" = some [">" ++ "contig1:100-150", nFill 50]
    ∧ (nFill 50).length = 50
    ∧ 100 + (nFill 50).length = 150 :=
  c1_filler_shape "contig1:100-150" 100 150 (by decide) (by decide) (by decide)

/-- Claim C9: FailureFiller only creates files for regions whose expected
output is absent — every file present before it runs keeps its exact
content. -/
theorem c9_filler_frame (polish_ranges : List String) (fs fs' : Fs)
    (n : String) (c : List String)
    (hrun : runFiller polish_ranges fs = some fs') (hc : fs n = some c) :
    fs' n = some c := by
  have hne : ∀ r ∈ incompleteRanges polish_ranges fs, fastaName r ≠ n := by
    intro r hr he
    have h2 := (List.mem_filter.mp hr).2
    rw [he, hc] at h2
    simp at h2
  have hp := fillAll_preserves (incompleteRanges polish_ranges fs) fs fs' n hrun hne
  rw [hp, hc]

/-- Witness for C9: with `polished.c1:0-5.fa` already present, the filler
creates the missing `polished.c1:5-10.fa` and leaves the existing file's
content untouched. -/
theorem c9_filler_frame_witness :
    Function.update fsW (fastaName "c1:5-10") (some [">" ++ "c1:5-10", nFill 5])
      (fastaName "c1:0-5") = some ["x"] :=
  c9_filler_frame ["c1:0-5", "c1:5-10"] fsW
    (Function.update fsW (fastaName "c1:5-10") (some [">" ++ "c1:5-10", nFill 5]))
    (fastaName "c1:0-5") ["x"] rfl rfl

/-- Claim C4: after FailureFiller, the polished-output files that exist are
exactly one per region of the planner's list — none dropped, none added
(given that the only polished files present beforehand belong to planned
regions, as each job writes only its own region's file). -/
theorem c4_coverage (polish_ranges : List String) (fs fs' : Fs)
    (hpre : ∀ n, (fs n).isSome = true → isPolishedName n →
      ∃ r ∈ polish_ranges, n = fastaName r)
    (hrun : runFiller polish_ranges fs = some fs') :
    (∀ n, ((fs' n).isSome = true ∧ isPolishedName n) ↔
      ∃ r ∈ polish_ranges, n = fastaName r)
    ∧ ∀ r1 r2 : String, fastaName r1 = fastaName r2 → r1 = r2 := by
  constructor
  · intro n
    constructor
    · rintro ⟨hsome, hpol⟩
      rcases fillAll_new _ _ _ _ hrun hsome with h | ⟨r, hr, he⟩
      · exact hpre n h hpol
      · exact ⟨r, (List.mem_filter.mp hr).1, he.symm⟩
    · rintro ⟨r, hr, rfl⟩
      refine ⟨?_, ⟨r, rfl⟩⟩
      by_cases hf : (fs (fastaName r)).isSome = true
      · exact fillAll_isSome_mono _ _ _ _ hrun hf
      · refine fillAll_covers _ _ _ _ hrun ?_
        refine List.mem_filter.mpr ⟨hr, ?_⟩
        simp only [Option.isNone_iff_eq_none]
        exact Option.not_isSome_iff_eq_none.mp (fun hh => hf hh)
  · intro r1 r2 h
    have hd : "polished.".data ++ (r1.data ++ ".fa".data)
        = "polished.".data ++ (r2.data ++ ".fa".data) := by
      have hc := congrArg String.data h
      simpa [fastaName, String.data_append, List.append_assoc] using hc
    have h2 := List.append_cancel_left hd
    have h3 := List.append_cancel_right h2
    cases r1 with
    | mk l1 =>
      cases r2 with
      | mk l2 => exact congrArg String.mk h3

/-- Witness for C4: one planned region, an empty workspace — after filling,
exactly that region's polished file exists. -/
theorem c4_coverage_witness :
    (∀ n, (((Function.update fsEmpty (fastaName "c1:0-5")
        (some [">" ++ "c1:0-5", nFill 5])) n).isSome = true ∧ isPolishedName n) ↔
      ∃ r ∈ ["c1:0-5"], n = fastaName r)
    ∧ (∀ r1 r2 : String, fastaName r1 = fastaName r2 → r1 = r2) :=
  c4_coverage ["c1:0-5"] fsEmpty
    (Function.update fsEmpty (fastaName "c1:0-5") (some [">" ++ "c1:0-5", nFill 5]))
    (by intro n h hp; simp [fsEmpty] at h) rfl

theorem monitorLoop_ok_spec (pfx : String) (sq : Nat → Except Unit (List String)) :
    ∀ (fuel i s k s' : Nat), monitorLoop pfx sq fuel i s = Except.ok (k, s') →
      i ≤ k ∧ k < i + fuel ∧ s' = s + (k - i) + 1
      ∧ (∃ lines, sq k = Except.ok lines
          ∧ get_remaining_nanopolish_jobs pfx lines = 0)
      ∧ ∀ j, i ≤ j → j < k → ∃ lines, sq j = Except.ok lines
          ∧ get_remaining_nanopolish_jobs pfx lines ≠ 0 := by
  intro fuel
  induction fuel with
  | zero => intro i s k s' h; simp [monitorLoop] at h
  | succ fuel ih =>
    intro i s k s' h
    simp only [monitorLoop] at h
    cases hq : sq i with
    | error e => rw [hq] at h; simp at h
    | ok lines =>
      rw [hq] at h
      dsimp only at h
      by_cases hz : get_remaining_nanopolish_jobs pfx lines = 0
      · rw [if_pos hz] at h
        have hik : i = k ∧ s + 1 = s' := by simpa using h
        obtain ⟨rfl, rfl⟩ := hik
        exact ⟨le_refl _, by omega, by omega, ⟨lines, hq, hz⟩,
          fun j h1 h2 => absurd h2 (by omega)⟩
      · rw [if_neg hz] at h
        obtain ⟨h1, h2, h3, h4, h5⟩ := ih (i + 1) (s + 1) k s' h
        refine ⟨by omega, by omega, by omega, h4, ?_⟩
        intro j hij hjk
        rcases Nat.eq_or_lt_of_le hij with rfl | hlt
        · exact ⟨lines, hq, hz⟩
        · exact h5 j (by omega) hjk

theorem monitorLoop_reaches (pfx : String) (q : Nat → List String) :
    ∀ (fuel i s k : Nat), i ≤ k → k < i + fuel →
      get_remaining_nanopolish_jobs pfx (q k) = 0 →
      (∀ j, i ≤ j → j < k → get_remaining_nanopolish_jobs pfx (q j) ≠ 0) →
      monitorLoop pfx (fun j => Except.ok (q j)) fuel i s
        = Except.ok (k, s + (k - i) + 1) := by
  intro fuel
  induction fuel with
  | zero => intro i s k h1 h2 _ _; exact absurd h2 (by omega)
  | succ fuel ih =>
    intro i s k h1 h2 hk hprev
    simp only [monitorLoop]
    by_cases hik : i = k
    · subst hik
      rw [if_pos hk]
      simp [Nat.sub_self]
    · have hlt : i < k := by omega
      have hi : get_remaining_nanopolish_jobs pfx (q i) ≠ 0 :=
        hprev i (le_refl _) hlt
      rw [if_neg hi]
      have he : s + (k - i) + 1 = (s + 1) + (k - (i + 1)) + 1 := by omega
      rw [he]
      exact ih (i + 1) (s + 1) k (by omega) (by omega) hk
        (fun j ha hb => hprev j (by omega) hb)

/-- Claim C3: the monitoring loop exits at poll `k` iff the squeue query at
poll `k` reports zero lines containing the run's job-name prefix and every
earlier poll reported at least one; in particular it never exits while a
matching queue entry is present, and re-polls (after the fixed sleep) while
one remains. -/
theorem c3_monitor_done_iff (pfx : String) (q : Nat → List String)
    (fuel k : Nat) :
    (∃ s, monitorLoop pfx (fun j => Except.ok (q j)) fuel 0 0
        = Except.ok (k, s)) ↔
      k < fuel ∧ get_remaining_nanopolish_jobs pfx (q k) = 0
        ∧ ∀ j, j < k → get_remaining_nanopolish_jobs pfx (q j) ≠ 0 := by
  constructor
  · rintro ⟨s, hs⟩
    obtain ⟨h1, h2, h3, ⟨lines, hq, hz⟩, h5⟩ :=
      monitorLoop_ok_spec pfx _ fuel 0 0 k s hs
    have hlk : q k = lines := by simpa using hq
    refine ⟨by omega, by rw [hlk]; exact hz, ?_⟩
    intro j hj
    obtain ⟨lines2, hq2, hnz⟩ := h5 j (Nat.zero_le _) hj
    have hlj : q j = lines2 := by simpa using hq2
    rw [hlj]
    exact hnz
  · rintro ⟨h1, h2, h3⟩
    exact ⟨0 + (k - 0) + 1,
      monitorLoop_reaches pfx q fuel 0 0 k (Nat.zero_le _) (by omega) h2
        (fun j _ hb => h3 j hb)⟩

/-- Claim C8 counterexample: the loop body sleeps before it queries, so a
run whose jobs are already gone at the first check still incurs one sleep,
contradicting the claim that the queue is queried first and such a run
incurs no sleep. -/
theorem c8_counterexample :
    get_remaining_nanopolish_jobs (jobPfx "1") [] = 0
    ∧ monitorLoop (jobPfx "1") (fun _ => Except.ok []) 2 0 0 = Except.ok (0, 1)
    ∧ (1 : Nat) ≠ 0 :=
  ⟨rfl, rfl, by decide⟩

/-- Claim C8 (amended): each iteration of the monitoring loop sleeps the
fixed 60-second interval first and then queries the scheduler queue, so a
loop that exits at poll `k` has incurred exactly `k + 1` sleeps — in
particular a run whose jobs are already gone at the first check incurs
exactly one sleep. -/
theorem c8_amended_sleep_first (pfx : String)
    (sq : Nat → Except Unit (List String)) (fuel k s : Nat)
    (h : monitorLoop pfx sq fuel 0 0 = Except.ok (k, s)) : s = k + 1 := by
  obtain ⟨_, _, h3, _, _⟩ := monitorLoop_ok_spec pfx sq fuel 0 0 k s h
  omega

/-- Witness for the amended C8: a queue that empties after one busy poll —
the loop exits at poll 1 having slept twice. -/
theorem c8_amended_sleep_first_witness : (2 : Nat) = 1 + 1 :=
  c8_amended_sleep_first (jobPfx "1")
    (fun j => Except.ok (if j = 0 then [squeueLine (jobName "1" "c1:0-5") "7" "R"] else []))
    2 1 2 (by rfl)

/-- Claim C10: `os.mkdir` raises if `<pid>_temp_dir` already exists, so such
a run aborts at workspace creation, before range planning, alignment or
submission. -/
theorem c10_workspace_guard (env : Env) (fuel : Nat)
    (h : env.tempDirExists = true) :
    (runMain env fuel).outcome = Except.error RunError.workspaceExists
    ∧ (runMain env fuel).trace = [Stage.workspace]
    ∧ Stage.planning ∉ (runMain env fuel).trace
    ∧ Stage.aligning ∉ (runMain env fuel).trace
    ∧ Stage.submitting ∉ (runMain env fuel).trace := by
  simp [runMain, h]

/-- Witness for C10: a run whose temp dir is taken halts at once. -/
theorem c10_workspace_guard_witness :
    (runMain envDirTaken 1).outcome = Except.error RunError.workspaceExists
    ∧ (runMain envDirTaken 1).trace = [Stage.workspace]
    ∧ Stage.planning ∉ (runMain envDirTaken 1).trace
    ∧ Stage.aligning ∉ (runMain envDirTaken 1).trace
    ∧ Stage.submitting ∉ (runMain envDirTaken 1).trace :=
  c10_workspace_guard envDirTaken 1 rfl

/-- Claim C5 counterexample: a planner that exits zero but prints nothing is
not treated as an error — the run proceeds through alignment and submission
and even completes, refuting "produces no output lines → fails immediately
before any alignment". -/
theorem c5_counterexample :
    get_nanopolish_ranges (Except.ok "") = Except.ok []
    ∧ Stage.aligning ∈ (runMain envEmptyPlanner 1).trace
    ∧ Stage.submitting ∈ (runMain envEmptyPlanner 1).trace
    ∧ (runMain envEmptyPlanner 1).outcome = Except.ok () :=
  ⟨rfl, by decide, by decide, rfl⟩

/-- Claim C5 (amended): if the range-partitioning tool exits non-zero the
run fails immediately, before alignment, submission or monitoring; an empty
output list is not checked, and the run proceeds with zero regions. -/
theorem c5_amended_planner_fatal (env : Env) (fuel : Nat) (c : Nat)
    (h0 : env.tempDirExists = false) (h1 : env.plannerResult = Except.error c) :
    (runMain env fuel).outcome = Except.error (RunError.plannerFailed c)
    ∧ Stage.aligning ∉ (runMain env fuel).trace
    ∧ Stage.submitting ∉ (runMain env fuel).trace
    ∧ Stage.monitoring ∉ (runMain env fuel).trace := by
  simp [runMain, h0, h1, get_nanopolish_ranges]

/-- Witness for the amended C5: a planner exiting 1 halts the run before
alignment. -/
theorem c5_amended_planner_fatal_witness :
    (runMain envPlannerErr 1).outcome = Except.error (RunError.plannerFailed 1)
    ∧ Stage.aligning ∉ (runMain envPlannerErr 1).trace
    ∧ Stage.submitting ∉ (runMain envPlannerErr 1).trace
    ∧ Stage.monitoring ∉ (runMain envPlannerErr 1).trace :=
  c5_amended_planner_fatal envPlannerErr 1 1 rfl rfl

/-- Claim C6: any fatal external-command failure (rejected submission,
failed squeue query, failed merge) halts the run at once with a non-zero
exit — a failed submission never reaches monitoring, a failed query never
reaches filling or merging, a failed merge never reaches cleanup and leaves
the workspace in place — while a successful run removes the workspace and
exits zero. -/
theorem c6_fatal_halt (env : Env) (fuel : Nat) :
    ((∃ r, (runMain env fuel).outcome = Except.error (RunError.submitFailed r)) →
        Stage.monitoring ∉ (runMain env fuel).trace)
    ∧ ((runMain env fuel).outcome = Except.error RunError.queryFailed →
        Stage.filling ∉ (runMain env fuel).trace
          ∧ Stage.merging ∉ (runMain env fuel).trace)
    ∧ ((runMain env fuel).outcome = Except.error RunError.mergeFailed →
        (runMain env fuel).workspaceRemoved = false
          ∧ Stage.cleanup ∉ (runMain env fuel).trace)
    ∧ ((runMain env fuel).outcome = Except.ok () →
        (runMain env fuel).workspaceRemoved = true
          ∧ Stage.cleanup ∈ (runMain env fuel).trace) := by
  unfold runMain
  split
  · simp
  · split
    · simp
    · split
      · simp
      · split
        · simp
        · split
          · simp
          · split
            · simp
            · split
              · rename_i e heq
                cases e <;> simp [monErr]
              · split
                · simp
                · split
                  · simp
                  · simp

/-- Witness for C6: in an environment where every external step succeeds,
the run exits zero with the workspace removed. -/
theorem c6_fatal_halt_witness :
    (runMain envGood 1).workspaceRemoved = true
    ∧ Stage.cleanup ∈ (runMain envGood 1).trace :=
  (c6_fatal_halt envGood 1).2.2.2 rfl

theorem isPrefixB_append_same (x : List Char) :
    ∀ u v : List Char, isPrefixB (x ++ u) (x ++ v) = isPrefixB u v := by
  induction x with
  | nil => intro u v; rfl
  | cons c cs ih =>
    intro u v
    simp [List.cons_append, isPrefixB, ih]

theorem digits_underscore_unmatched :
    ∀ (a b rest : List Char), (∀ c ∈ a, c.isDigit = true) →
      (∀ c ∈ b, c.isDigit = true) → a ≠ b →
      isPrefixB (a ++ ['_']) (b ++ '_' :: rest) = false := by
  intro a
  induction a with
  | nil =>
    intro b rest _ hb hne
    cases b with
    | nil => exact absurd rfl hne
    | cons d ds =>
      have hd : d.isDigit = true := hb d (List.mem_cons_self _ _)
      have hud : ('_' : Char) ≠ d := by
        intro e; rw [← e] at hd; exact absurd hd (by decide)
      simp [isPrefixB, hud]
  | cons c cs ih =>
    intro b rest ha hb hne
    cases b with
    | nil =>
      have hc : c.isDigit = true := ha c (List.mem_cons_self _ _)
      have hcu : c ≠ '_' := by
        intro e; rw [e] at hc; exact absurd hc (by decide)
      simp [isPrefixB, hcu]
    | cons d ds =>
      by_cases hcd : c = d
      · subst hcd
        have hne2 : cs ≠ ds := fun e => hne (by rw [e])
        have hrec := ih ds rest (fun x hx => ha x (List.mem_cons_of_mem _ hx))
          (fun x hx => hb x (List.mem_cons_of_mem _ hx)) hne2
        simp [isPrefixB, hrec]
      · simp [isPrefixB, hcd]

/-- Claim C7 counterexample: substring matching lets one run count another
run's queue entry even though the process ids differ — here run 2's job,
whose region identifier embeds run 1's prefix, is counted both by run 2's
monitor and by run 1's. -/
theorem c7_counterexample :
    ("1" : String) ≠ "2"
    ∧ isPrefixB (jobPfx "2").data (jobName "2" "Nanopolish_1_c:0-9").data = true
    ∧ isPrefixB (jobPfx "1").data (jobName "2" "Nanopolish_1_c:0-9").data = false
    ∧ get_remaining_nanopolish_jobs (jobPfx "2")
        [squeueLine (jobName "2" "Nanopolish_1_c:0-9") "77" "RUNNING"] = 1
    ∧ get_remaining_nanopolish_jobs (jobPfx "1")
        [squeueLine (jobName "2" "Nanopolish_1_c:0-9") "77" "RUNNING"] = 1 :=
  ⟨by decide, by decide, by decide, by decide, by decide⟩

/-- Claim C7 (amended): the monitor counts the queue lines containing its
run's prefix as a substring.  For two runs with distinct all-digit process
ids, one run's prefix can never match at the start of the other run's job
name; so, provided the prefix does not occur embedded strictly inside the
other run's queue line (as it can when a region identifier itself contains
the prefix), a queue entry created by one run is not counted by the
other's monitor. -/
theorem c7_amended_prefix_scoping (a b : List Char) (r i st : String)
    (ha : ∀ c ∈ a, c.isDigit = true) (hb : ∀ c ∈ b, c.isDigit = true)
    (hne : a ≠ b)
    (hin : isInfixB (jobPfx (String.mk a)).data
        ((squeueLine (jobName (String.mk b) r) i st).data.tail) = false) :
    isPrefixB (jobPfx (String.mk a)).data (jobName (String.mk b) r).data = false
    ∧ get_remaining_nanopolish_jobs (jobPfx (String.mk a))
        [squeueLine (jobName (String.mk b) r) i st] = 0 := by
  have hPdata : (jobPfx (String.mk a)).data
      = "Nanopolish_".data ++ (a ++ ['_']) := by
    simp [jobPfx, String.data_append, List.append_assoc]
  have hcore : ∀ rest : List Char,
      isPrefixB (jobPfx (String.mk a)).data
        ("Nanopolish_".data ++ (b ++ '_' :: rest)) = false := by
    intro rest
    rw [hPdata, isPrefixB_append_same]
    exact digits_underscore_unmatched a b rest ha hb hne
  have hjob : (jobName (String.mk b) r).data
      = "Nanopolish_".data ++ (b ++ '_' :: r.data) := by
    simp [jobName, jobPfx, String.data_append, List.append_assoc]
  have hline : (squeueLine (jobName (String.mk b) r) i st).data
      = "Nanopolish_".data
        ++ (b ++ '_' :: (r.data ++ ' ' :: (i.data ++ ' ' :: st.data))) := by
    simp [squeueLine, jobName, jobPfx, String.data_append, List.append_assoc]
  constructor
  · rw [hjob]
    exact hcore r.data
  · have hinf : isInfixB (jobPfx (String.mk a)).data
        (squeueLine (jobName (String.mk b) r) i st).data = false := by
      cases hl : (squeueLine (jobName (String.mk b) r) i st).data with
      | nil =>
        exfalso
        rw [hl] at hline
        have h2 := hline.symm
        rw [List.append_eq_nil] at h2
        exact absurd h2.1 (by decide)
      | cons c t =>
        have htail : t = (squeueLine (jobName (String.mk b) r) i st).data.tail := by
          rw [hl]
          rfl
        have h1 : isPrefixB (jobPfx (String.mk a)).data (c :: t) = false := by
          rw [← hl, hline]
          exact hcore _
        have h2 : isInfixB (jobPfx (String.mk a)).data t = false := by
          rw [htail]
          exact hin
        simp [isInfixB, h1, h2]
    simp [get_remaining_nanopolish_jobs, hinf]

/-- Witness for the amended C7: runs with pids 1 and 2 and a plain region —
run 1's monitor counts run 2's queue entry as zero. -/
theorem c7_amended_prefix_scoping_witness :
    isPrefixB (jobPfx (String.mk ['1'])).data
      (jobName (String.mk ['2']) "c:0-9").data = false
    ∧ get_remaining_nanopolish_jobs (jobPfx (String.mk ['1']))
        [squeueLine (jobName (String.mk ['2']) "c:0-9") "77" "RUNNING"] = 0 :=
  c7_amended_prefix_scoping ['1'] ['2'] "c:0-9" "77" "RUNNING"
    (by decide) (by decide) (by decide) (by decide)

/-- Claim C2 counterexample: the merge consumes files in shell-glob
(lexicographic) order, which puts `c1:1000-1100` before `c1:900-1000` even
though its start coordinate is larger — the merged records are not in
ascending coordinate order. -/
theorem c2_counterexample :
    mergeInput [fastaName "c1:900-1000", fastaName "c1:1000-1100"]
        = [fastaName "c1:1000-1100", fastaName "c1:900-1000"]
    ∧ coordSort ["c1:900-1000", "c1:1000-1100"] = ["c1:900-1000", "c1:1000-1100"]
    ∧ mergeInput [fastaName "c1:900-1000", fastaName "c1:1000-1100"]
        ≠ List.map fastaName (coordSort ["c1:900-1000", "c1:1000-1100"])
    ∧ mergeOutput [fastaName "c1:900-1000", fastaName "c1:1000-1100"] fsC2
        = [">" ++ "c1:1000-1100", nFill 100, ">" ++ "c1:900-1000", nFill 100] :=
  ⟨by decide, by decide, by decide, by decide⟩

/-- Claim C2 (amended): the merged assembly contains the per-region records
in lexicographic file-name order — identical for any two enumerations of
the same files, since the shell sorts the glob expansion — but that order
is lexicographic, not ascending genomic coordinate order. -/
theorem c2_amended_merge_order (l1 l2 : List String) (fs : Fs)
    (hperm : l1.Perm l2) :
    mergeInput l1 = mergeInput l2
    ∧ mergeOutput l1 fs = mergeOutput l2 fs
    ∧ List.Sorted strLe (mergeInput l1) := by
  have hf : (l1.filter isPolishedNameB).Perm (l2.filter isPolishedNameB) :=
    hperm.filter _
  have hs1 : List.Sorted strLe (mergeInput l1) :=
    List.sorted_insertionSort strLe _
  have hs2 : List.Sorted strLe (mergeInput l2) :=
    List.sorted_insertionSort strLe _
  have hp : (mergeInput l1).Perm (mergeInput l2) :=
    ((List.perm_insertionSort strLe _).trans hf).trans
      (List.perm_insertionSort strLe _).symm
  have heq : mergeInput l1 = mergeInput l2 :=
    List.eq_of_perm_of_sorted hp hs1 hs2
  refine ⟨heq, ?_, hs1⟩
  unfold mergeOutput
  rw [heq]

/-- Witness for the amended C2: two enumerations of the same two files give
the same sorted merge input. -/
theorem c2_amended_merge_order_witness :
    mergeInput [fastaName "c1:0-5", fastaName "c1:5-10"]
        = mergeInput [fastaName "c1:5-10", fastaName "c1:0-5"]
    ∧ mergeOutput [fastaName "c1:0-5", fastaName "c1:5-10"] fsC2
        = mergeOutput [fastaName "c1:5-10", fastaName "c1:0-5"] fsC2
    ∧ List.Sorted strLe (mergeInput [fastaName "c1:0-5", fastaName "c1:5-10"]) :=
  c2_amended_merge_order [fastaName "c1:0-5", fastaName "c1:5-10"]
    [fastaName "c1:5-10", fastaName "c1:0-5"] fsC2 (by decide)
